import Mathlib

/-!
Shallow embedding of the calculation core of HBCalcv0_94.py (a lumen-method
lighting calculator) and proofs about it.

Conventions of the embedding:
* Python floats are modelled as exact rationals (ℚ); machine rounding is not
  modelled, the claims under study are order/algebra properties.
* pandas DataFrame cells of the cavity-index (K) column are modelled by `Cell`:
  a numeric cell, a non-numeric text cell (any string `pd.to_numeric` cannot
  parse), or a missing value (NaN).
* Fallible Python code (raising ValueError / ZeroDivisionError) is modelled
  with `Except`.
* Python `sorted` (Timsort) is a stable ascending sort; it is modelled by
  `stableSort`, a stable insertion sort, which computes the same list for any
  total preorder comparison.
-/

namespace HBCalc

attribute [local semireducible] Rat.mul Rat.inv Rat.add Rat.sub

/-- Error kinds of the calculation functions (Python raises ValueError or
ZeroDivisionError; the constructor records which validation failed). -/
inductive CalcError where
  | invalidPhotometry
  | zeroDivision
deriving DecidableEq, Repr

/-- Error kinds raised inside interpolate_uf.  `outOfRange` is the explicit
range check on K; `noReflectanceColumns` is the explicit "No valid reflectance
columns" check; `malformed` stands for the remaining failure paths (IndexError
on fewer than two columns, numpy min/max or lookup on empty data), all of which
the Python wraps into a generic ValueError. -/
inductive UfError where
  | outOfRange
  | noReflectanceColumns
  | malformed
deriving DecidableEq, Repr

/-- SHR_FACTOR constant (line 44 of the source): multiplier applied to the
nominal spacing-to-height ratio, 1.50. -/
def SHR_FACTOR : ℚ := 3 / 2

/-- MIN_SPACING constant (line 49 of the source): minimum allowed distance
between fixtures, 3.0 m. -/
def MIN_SPACING : ℚ := 3

/-- calculate_number_of_fixtures (lines 439-475): validates that luminous
flux, Uf and MF are positive, then returns the ceiling of the lumen-method
quotient.  The inner ValueError is caught and re-raised with a different
message; the error kind is the same, so the model reports
`invalidPhotometry` directly. -/
def calculate_number_of_fixtures (E room_length room_width luminous_flux Uf MF : ℚ) :
    Except CalcError ℤ :=
  if luminous_flux ≤ 0 ∨ Uf ≤ 0 ∨ MF ≤ 0 then .error .invalidPhotometry
  else .ok ⌈(E * room_length * room_width) / (luminous_flux * Uf * MF)⌉

/-- calculate_adjusted_light_level (lines 746-758): `E * (actual / num)` with
no guard on `num`; Python raises ZeroDivisionError when num_fixtures is 0,
modelled as the `zeroDivision` error. -/
def calculate_adjusted_light_level (E : ℚ) (num_fixtures actual_fixtures : ℤ) :
    Except CalcError ℚ :=
  if num_fixtures = 0 then .error .zeroDivision
  else .ok (E * ((actual_fixtures : ℚ) / (num_fixtures : ℚ)))

/-- Model of a cell of the cavity-index column: numeric, non-numeric text
(anything `pd.to_numeric(..., errors="coerce")` turns into NaN), or NaN. -/
inductive Cell where
  | num (q : ℚ)
  | nonnumeric
  | nan
deriving DecidableEq, Repr

/-- Effect of `pd.to_numeric(col, errors="coerce")` on one cell: numeric cells
keep their value, non-numeric text becomes NaN, NaN stays NaN. -/
def Cell.toNumericCoerce : Cell → Cell
  | .num q => .num q
  | .nonnumeric => .nan
  | .nan => .nan

/-- Model of the utilization-factor DataFrame: the names of the data columns
(df.columns[1:]) and the rows, each a cavity-index cell (first column) paired
with the row's numeric utilization-factor values, one per data column. -/
structure UfDF where
  header : List String
  rows : List (Cell × List ℚ)
deriving DecidableEq, Repr

/-- Line 497 of interpolate_uf: `df.iloc[:, 0] = pd.to_numeric(df.iloc[:, 0],
errors="coerce")` mutates the caller's DataFrame in place, coercing the K
column.  The state returned by the interpolator is the input table with this
coercion applied. -/
def coerce_k_column (df : UfDF) : UfDF :=
  { df with rows := df.rows.map (fun r => (r.1.toNumericCoerce, r.2)) }

/-- Lines 497-500: the coerced table with rows whose K cell is missing dropped
(`df.dropna(subset=[df.columns[0]])`); rows that survive have a numeric key. -/
def cleanedRows (df : UfDF) : List (ℚ × List ℚ) :=
  df.rows.filterMap (fun r =>
    match r.1.toNumericCoerce with
    | Cell.num q => some (q, r.2)
    | _ => none)

/-- Splitting a character list at every underscore, keeping empty pieces:
the semantics of Python str.split with a one-character separator. -/
def splitOnUnderscore : List Char → List (List Char)
  | [] => [[]]
  | c :: rest =>
    match splitOnUnderscore rest with
    | [] => [[]]
    | p :: ps => if c = '_' then [] :: p :: ps else (c :: p) :: ps

/-- Accumulator for reading a decimal numeral. -/
def parseNatAux : ℕ → List Char → Option ℕ
  | acc, [] => some acc
  | acc, c :: cs =>
    if c.isDigit then parseNatAux (acc * 10 + (c.toNat - 48)) cs else none

/-- Python `int(s)` on the digit strings appearing in column labels: a
non-empty all-digit string parses to its value, anything else raises
(modelled as `none`).  Signs and surrounding whitespace, which Python would
also accept but which never occur in these labels, are not modelled. -/
def parseNatDigits (cs : List Char) : Option ℕ :=
  if cs = [] then none else parseNatAux 0 cs

/-- Lines 514-525: parsing one column label of the form RcXX_RwYY_RfZZ.  The
label must start with "Rc" and split on underscores into exactly three parts;
the digits after the first two characters of each part are the tagged
ceiling/wall/floor reflectances.  Unparsable labels are skipped. -/
def parse_reflectance_col (name : String) : Option (ℕ × ℕ × ℕ) :=
  let cs := name.data
  if cs.take 2 = ['R', 'c'] then
    match splitOnUnderscore cs with
    | [p0, p1, p2] =>
      match parseNatDigits (p0.drop 2), parseNatDigits (p1.drop 2),
            parseNatDigits (p2.drop 2) with
      | some a, some b, some c => some (a, b, c)
      | _, _, _ => none
    | _ => none
  else none

/-- Lines 512-525: the parsed reflectance combinations, in column order.
Columns are identified by their position in `df.header` (the Python keys the
dict by the unique column name; position is an equivalent identifier). -/
def reflectance_combinations (df : UfDF) : List (ℕ × ℕ × ℕ × ℕ) :=
  df.header.enum.filterMap (fun p =>
    match parse_reflectance_col p.2 with
    | some (a, b, c) => some (p.1, a, b, c)
    | none => none)

/-- Lines 532-536: distance of each tagged column from the requested
reflectances (sum of absolute differences), paired with the column index,
in column order. -/
def distancesList (Rc Rw Rf : ℚ) (df : UfDF) : List (ℚ × ℕ) :=
  (reflectance_combinations df).map (fun x =>
    (|(x.2.1 : ℚ) - Rc| + |(x.2.2.1 : ℚ) - Rw| + |(x.2.2.2 : ℚ) - Rf|, x.1))

/-- Stable insertion of an element: the new element goes after every already
placed element that compares ≤ to it, so elements comparing equal keep their
insertion order, as in Python sorting. -/
def insertStable (le : α → α → Bool) (x : α) : List α → List α
  | [] => [x]
  | y :: ys => if le y x then y :: insertStable le x ys else x :: y :: ys

/-- Left fold inserting each element in turn; processing the input
left-to-right makes the sort stable. -/
def stableSortAux (le : α → α → Bool) : List α → List α → List α
  | acc, [] => acc
  | acc, x :: xs => stableSortAux le (insertStable le x acc) xs

/-- Model of Python `sorted(l, key=...)`: a stable ascending sort.  For a
total, transitive comparison this computes the unique stable sorted
permutation, hence the same list Timsort produces. -/
def stableSort (le : α → α → Bool) (l : List α) : List α :=
  stableSortAux le [] l

/-- Comparison used at line 539: ascending by the distance component only
(Python `sort(key=lambda x: x[0])`). -/
def distLE (a b : ℚ × ℕ) : Bool := decide (a.1 ≤ b.1)

/-- Lookup `df[df.iloc[:, 0] == k][col].values[0]` (lines 552-561): the value
at column index `i` of the first cleaned row whose key equals `k`. -/
def table_lookup (cleaned : List (ℚ × List ℚ)) (k : ℚ) (i : ℕ) : Option ℚ :=
  match cleaned.find? (fun r => decide (r.1 = k)) with
  | some r => r.2.get? i
  | none => none

/-- Epsilon of the inverse-distance weighting (line 567): 1e-9. -/
def eps : ℚ := 1 / 1000000000

/-- Lines 564-571: inverse-distance weighted average of the two
column-interpolated utilization factors. -/
def uf_weighted (diff1 diff2 Uf1 Uf2 : ℚ) : ℚ :=
  let w1 := 1 / (diff1 + eps)
  let w2 := 1 / (diff2 + eps)
  (Uf1 * w1 + Uf2 * w2) / (w1 + w2)

/-- Linear interpolation between the bracketing rows (lines 556-562). -/
def lin_interp (K lowerK upperK lo hi : ℚ) : ℚ :=
  lo + (K - lowerK) * (hi - lo) / (upperK - lowerK)

/-- Condition `K < min_K` of line 507.  When the cleaned key column is empty,
pandas min() is NaN and the Python comparison is false, modelled by the
`none` branch. -/
def below_min (K : ℚ) (ks : List ℚ) : Bool :=
  match ks.min? with
  | some m => decide (K < m)
  | none => false

/-- Condition `K > max_K` of line 507, with the same NaN convention. -/
def above_max (K : ℚ) (ks : List ℚ) : Bool :=
  match ks.max? with
  | some m => decide (m < K)
  | none => false

/-- Computation of lines 512-572, after the in-place coercion and the range
check: parse the reflectance columns, pick the two closest, bracket K,
interpolate in each column, and combine with inverse-distance weights.
Failure paths that Python reaches as IndexError or numpy errors on empty
data (fewer than two parsed columns, an empty cleaned key column at the
bracketing step, a missing value at a lookup) are the `malformed` error. -/
def interpolate_after_range (K Rc Rw Rf : ℚ) (df : UfDF) : Except UfError ℚ :=
  let cleaned := cleanedRows df
  let ks := cleaned.map Prod.fst
  if reflectance_combinations df = [] then .error .noReflectanceColumns
  else
    match stableSort distLE (distancesList Rc Rw Rf df) with
    | (diff1, col1) :: (diff2, col2) :: _ =>
      match (ks.filter (fun a => decide (a ≤ K))).max?,
            (ks.filter (fun a => decide (K ≤ a))).min? with
      | some lowerK, some upperK =>
        if lowerK = upperK then
          match table_lookup cleaned lowerK col1, table_lookup cleaned lowerK col2 with
          | some Uf1, some Uf2 => .ok (uf_weighted diff1 diff2 Uf1 Uf2)
          | _, _ => .error .malformed
        else
          match table_lookup cleaned lowerK col1, table_lookup cleaned upperK col1,
                table_lookup cleaned lowerK col2, table_lookup cleaned upperK col2 with
          | some lo1, some hi1, some lo2, some hi2 =>
            .ok (uf_weighted diff1 diff2
                  (lin_interp K lowerK upperK lo1 hi1)
                  (lin_interp K lowerK upperK lo2 hi2))
          | _, _, _, _ => .error .malformed
      | _, _ => .error .malformed
    | _ => .error .malformed

/-- Computation performed by interpolate_uf (lines 495-572) after the
in-place coercion: clean the table, check the K range (lines 503-510), then
interpolate.  With no numeric key the pandas min/max are NaN, both
comparisons of line 507 are false and no range error is raised, which the
`below_min` and `above_max` helpers model. -/
def interpolate_core (K Rc Rw Rf : ℚ) (df : UfDF) : Except UfError ℚ :=
  let ks := (cleanedRows df).map Prod.fst
  if below_min K ks || above_max K ks then .error .outOfRange
  else interpolate_after_range K Rc Rw Rf df

/-- interpolate_uf as observed by the caller: the pair of the table state
after the call (the caller's DataFrame, whose K column line 497 coerced in
place) and the returned value or error. -/
def interpolate_uf (K Rc Rw Rf : ℚ) (df : UfDF) : UfDF × Except UfError ℚ :=
  (coerce_k_column df, interpolate_core K Rc Rw Rf df)

/-- calculate_spacing (lines 632-645): one fixture (or zero) uses the full
dimension, otherwise the dimension is divided by the fixture count. -/
def calculate_spacing (room_dim : ℚ) (num_fixtures : ℕ) : ℚ :=
  if num_fixtures ≤ 1 then room_dim else room_dim / (num_fixtures : ℚ)

/-- calculate_shr (lines 647-660): spacing over mounting height, positive
infinity for a non-positive mounting height. -/
def calculate_shr (spacing mounting_height : ℚ) : WithTop ℚ :=
  if mounting_height ≤ 0 then ⊤ else ((spacing / mounting_height : ℚ) : WithTop ℚ)

/-- One candidate record appended by find_valid_arrays (lines 720-728).
Parity is the Python string tag. -/
structure Candidate where
  array : ℕ × ℕ
  spacing_length : ℚ
  spacing_width : ℚ
  shr_length : WithTop ℚ
  shr_width : WithTop ℚ
  fixtures : ℕ
  parity : String
deriving DecidableEq, Repr

/-- Candidate built from one (rows, cols) pair (lines 691-703 and 720-728):
orientation puts the larger count along the length when the room is at least
as long as wide, then spacings and directional SHRs are computed. -/
def mk_candidate (aspect_ratio room_length room_width mounting_height : ℚ)
    (rows cols : ℕ) : Candidate :=
  let along_length := if 1 ≤ aspect_ratio then max rows cols else min rows cols
  let across_width := if 1 ≤ aspect_ratio then min rows cols else max rows cols
  let spacing_length := calculate_spacing room_length along_length
  let spacing_width := calculate_spacing room_width across_width
  { array := (along_length, across_width)
    spacing_length := spacing_length
    spacing_width := spacing_width
    shr_length := calculate_shr spacing_length mounting_height
    shr_width := calculate_shr spacing_width mounting_height
    fixtures := along_length * across_width
    parity := if across_width % 2 = 0 then "even" else "odd" }

/-- Comparison of a possibly-infinite SHR with the finite limit: infinity
never passes, a finite value passes when at most the limit.  This computes
the proposition x ≤ lim on WithTop ℚ (see shr_le_limit_iff). -/
def shr_le_limit (x : WithTop ℚ) (lim : ℚ) : Bool :=
  match x with
  | Option.none => false
  | Option.some q => decide (q ≤ lim)

/-- SHR validity check of lines 706-707: both directional SHRs at most the
modified nominal limit. -/
def shr_ok (c : Candidate) (shr_nom_value : ℚ) : Bool :=
  shr_le_limit c.shr_length shr_nom_value &&
  shr_le_limit c.shr_width shr_nom_value

/-- Minimum-spacing check of lines 710-716: a single row along the length
checks only the width spacing (and only when more than one fixture spans the
width); symmetrically for a single column across the width; otherwise both
spacings are checked. -/
def spacing_valid (along_length across_width : ℕ)
    (spacing_length spacing_width : ℚ) : Bool :=
  if along_length = 1 then
    (if 1 < across_width then decide (MIN_SPACING ≤ spacing_width) else true)
  else if across_width = 1 then
    (if 1 < along_length then decide (MIN_SPACING ≤ spacing_length) else true)
  else
    decide (MIN_SPACING ≤ spacing_length) && decide (MIN_SPACING ≤ spacing_width)

/-- Enumeration loop of lines 682-728: rows and cols each range over
1 .. num_fixtures + 3, pairs providing fewer than num_fixtures fixtures are
skipped, and a candidate is kept when both the SHR and the minimum-spacing
checks pass.  `shr_nom_value` is the value the Python reads from the global
metadata dict at line 679. -/
def valid_arrays (shr_nom_value : ℚ) (num_fixtures : ℕ)
    (aspect_ratio room_length room_width mounting_height : ℚ) : List Candidate :=
  (List.range' 1 (num_fixtures + 3)).flatMap (fun rows =>
    (List.range' 1 (num_fixtures + 3)).filterMap (fun cols =>
      if rows * cols < num_fixtures then none
      else
        let c := mk_candidate aspect_ratio room_length room_width mounting_height rows cols
        if shr_ok c shr_nom_value &&
           spacing_valid c.array.1 c.array.2 c.spacing_length c.spacing_width
        then some c else none))

/-- Sort key of line 734: absolute difference from the required count first,
then the total fixture count. -/
def candKey (num_fixtures : ℕ) (c : Candidate) : ℕ × ℕ :=
  (((c.fixtures : ℤ) - (num_fixtures : ℤ)).natAbs, c.fixtures)

/-- Lexicographic order on sort keys, as Python compares the tuples. -/
def keyLE (k1 k2 : ℕ × ℕ) : Prop :=
  k1.1 < k2.1 ∨ (k1.1 = k2.1 ∧ k1.2 ≤ k2.2)

/-- Boolean comparison used to model the `sorted` call of lines 733-734. -/
def candLE (num_fixtures : ℕ) (a b : Candidate) : Bool :=
  let k1 := candKey num_fixtures a
  let k2 := candKey num_fixtures b
  decide (k1.1 < k2.1 ∨ (k1.1 = k2.1 ∧ k1.2 ≤ k2.2))

/-- Deduplication loop of lines 731-738: keep the first occurrence (in sorted
order) of each (along_length, across_width) pair. -/
def dedup_by_array : List (ℕ × ℕ) → List Candidate → List Candidate
  | _, [] => []
  | seen, c :: rest =>
    if c.array ∈ seen then dedup_by_array seen rest
    else c :: dedup_by_array (c.array :: seen) rest

/-- The candidates of find_valid_arrays after the stable sort of lines
733-734. -/
def sorted_arrays (shr_nom_value : ℚ) (num_fixtures : ℕ)
    (aspect_ratio room_length room_width mounting_height : ℚ) : List Candidate :=
  stableSort (candLE num_fixtures)
    (valid_arrays shr_nom_value num_fixtures aspect_ratio room_length room_width mounting_height)

/-- The deduplicated, sorted candidate list (unique_arrays, lines 731-738). -/
def unique_arrays (shr_nom_value : ℚ) (num_fixtures : ℕ)
    (aspect_ratio room_length room_width mounting_height : ℚ) : List Candidate :=
  dedup_by_array []
    (sorted_arrays shr_nom_value num_fixtures aspect_ratio room_length room_width mounting_height)

/-- find_valid_arrays (lines 662-744).  The first explicit parameter is the
global `metadata['SHRNOM_Modified']` value the body reads at line 679; the
trailing `shr_nom` parameter mirrors the Python signature and, as in the
source, is never used.  Returns the first even-parity and the first
odd-parity entries of the deduplicated sorted list (lines 741-742),
`none` when a parity is absent. -/
def find_valid_arrays (metadata_SHRNOM_Modified : ℚ) (num_fixtures : ℕ)
    (aspect_ratio room_length room_width mounting_height shr_nom : ℚ) :
    Option Candidate × Option Candidate :=
  let unique := unique_arrays metadata_SHRNOM_Modified num_fixtures
    aspect_ratio room_length room_width mounting_height
  (unique.find? (fun a => a.parity == "even"),
   unique.find? (fun a => a.parity == "odd"))

/-- Small well-formed utilization-factor table used to instantiate theorems:
two properly labelled reflectance columns and two numeric K rows (K = 1 and
K = 2). -/
def dfExample : UfDF :=
  { header := ["Rc70_Rw50_Rf20", "Rc50_Rw30_Rf10"]
    rows := [(Cell.num 1, [1/2, 2/5]), (Cell.num 2, [3/5, 9/20])] }

/-- The same table with one additional row whose K cell is non-numeric text,
as a CSV with a stray label in the K column would produce. -/
def dfBadKey : UfDF :=
  { header := ["Rc70_Rw50_Rf20", "Rc50_Rw30_Rf10"]
    rows := [(Cell.nonnumeric, [0, 0]),
             (Cell.num 1, [1/2, 2/5]), (Cell.num 2, [3/5, 9/20])] }

/-- The single candidate the search returns for a 4 m × 4 m room with
mounting height 1 m, one required fixture and a permissive SHR limit of 100:
a 1 × 1 layout (odd parity), used to instantiate theorems. -/
def candidateWitness : Candidate :=
  { array := (1, 1)
    spacing_length := 4
    spacing_width := 4
    shr_length := ((4 : ℚ) : WithTop ℚ)
    shr_width := ((4 : ℚ) : WithTop ℚ)
    fixtures := 1
    parity := "odd" }

/-!
Helper lemmas: properties of the stable sort, of the deduplication pass, and
of list minima/maxima, followed by the theorems settling the claims.
-/

theorem mem_insertStable {α : Type} (le : α → α → Bool) (x a : α) (l : List α) :
    a ∈ insertStable le x l ↔ a = x ∨ a ∈ l := by
  induction l with
  | nil => simp [insertStable]
  | cons y ys ih =>
    by_cases h : le y x = true
    · simp only [insertStable, if_pos h, List.mem_cons, ih]
      tauto
    · simp only [insertStable, if_neg h, List.mem_cons]

theorem pairwise_insertStable {α : Type} {le : α → α → Bool}
    (htot : ∀ a b, le a b = true ∨ le b a = true)
    (htrans : ∀ a b c, le a b = true → le b c = true → le a c = true)
    (x : α) {l : List α} (hl : l.Pairwise (fun a b => le a b = true)) :
    (insertStable le x l).Pairwise (fun a b => le a b = true) := by
  induction l with
  | nil => simp [insertStable]
  | cons y ys ih =>
    rw [List.pairwise_cons] at hl
    obtain ⟨hy, hys⟩ := hl
    by_cases h : le y x = true
    · simp only [insertStable, if_pos h]
      rw [List.pairwise_cons]
      refine ⟨?_, ih hys⟩
      intro z hz
      rcases (mem_insertStable le x z ys).mp hz with rfl | hz2
      · exact h
      · exact hy z hz2
    · simp only [insertStable, if_neg h]
      have hxy : le x y = true := (htot x y).resolve_right h
      rw [List.pairwise_cons]
      refine ⟨?_, List.Pairwise.cons hy hys⟩
      intro z hz
      rcases List.mem_cons.mp hz with rfl | hz2
      · exact hxy
      · exact htrans x y z hxy (hy z hz2)

theorem mem_stableSortAux {α : Type} (le : α → α → Bool) (a : α) :
    ∀ (l acc : List α), a ∈ stableSortAux le acc l ↔ a ∈ acc ∨ a ∈ l := by
  intro l
  induction l with
  | nil => intro acc; simp [stableSortAux]
  | cons x xs ih =>
    intro acc
    rw [stableSortAux, ih, mem_insertStable]
    simp only [List.mem_cons]
    tauto

theorem pairwise_stableSortAux {α : Type} {le : α → α → Bool}
    (htot : ∀ a b, le a b = true ∨ le b a = true)
    (htrans : ∀ a b c, le a b = true → le b c = true → le a c = true) :
    ∀ (l acc : List α), acc.Pairwise (fun a b => le a b = true) →
      (stableSortAux le acc l).Pairwise (fun a b => le a b = true) := by
  intro l
  induction l with
  | nil => intro acc hacc; exact hacc
  | cons x xs ih =>
    intro acc hacc
    rw [stableSortAux]
    exact ih _ (pairwise_insertStable htot htrans x hacc)

theorem pairwise_stableSort {α : Type} {le : α → α → Bool}
    (htot : ∀ a b, le a b = true ∨ le b a = true)
    (htrans : ∀ a b c, le a b = true → le b c = true → le a c = true)
    (l : List α) :
    (stableSort le l).Pairwise (fun a b => le a b = true) :=
  pairwise_stableSortAux htot htrans l [] List.Pairwise.nil

theorem mem_stableSort {α : Type} (le : α → α → Bool) (a : α) (l : List α) :
    a ∈ stableSort le l ↔ a ∈ l := by
  rw [stableSort, mem_stableSortAux]
  simp

theorem length_insertStable {α : Type} (le : α → α → Bool) (x : α) (l : List α) :
    (insertStable le x l).length = l.length + 1 := by
  induction l with
  | nil => rfl
  | cons y ys ih =>
    by_cases h : le y x = true
    · simp [insertStable, if_pos h, ih]
    · simp [insertStable, if_neg h]

theorem length_stableSortAux {α : Type} (le : α → α → Bool) :
    ∀ (l acc : List α), (stableSortAux le acc l).length = acc.length + l.length := by
  intro l
  induction l with
  | nil => intro acc; simp [stableSortAux]
  | cons x xs ih =>
    intro acc
    rw [stableSortAux, ih, length_insertStable]
    simp only [List.length_cons]
    omega

theorem length_stableSort {α : Type} (le : α → α → Bool) (l : List α) :
    (stableSort le l).length = l.length := by
  rw [stableSort, length_stableSortAux]
  simp

theorem find?_min_of_pairwise {α : Type} {R : α → α → Prop} (hrefl : ∀ a, R a a)
    {p : α → Bool} {a : α} :
    ∀ {l : List α}, l.Pairwise R → l.find? p = some a →
      ∀ b ∈ l, p b = true → R a b := by
  intro l
  induction l with
  | nil => intro _ hf; simp at hf
  | cons x xs ih =>
    intro hp hf b hb hpb
    rw [List.pairwise_cons] at hp
    rw [List.find?_cons] at hf
    cases hcase : p x with
    | true =>
      rw [hcase] at hf
      simp only [Option.some.injEq] at hf
      subst hf
      rcases List.mem_cons.mp hb with rfl | hb2
      · exact hrefl b
      · exact hp.1 b hb2
    | false =>
      rw [hcase] at hf
      rcases List.mem_cons.mp hb with rfl | hb2
      · rw [hpb] at hcase; exact absurd hcase (by simp)
      · exact ih hp.2 hf b hb2 hpb

theorem dedup_by_array_sublist :
    ∀ (l : List Candidate) (seen : List (ℕ × ℕ)),
      (dedup_by_array seen l).Sublist l := by
  intro l
  induction l with
  | nil => intro seen; simp [dedup_by_array]
  | cons c rest ih =>
    intro seen
    rw [dedup_by_array]
    by_cases h : c.array ∈ seen
    · rw [if_pos h]
      exact (ih seen).cons c
    · rw [if_neg h]
      exact (ih _).cons₂ c

theorem foldl_min_spec :
    ∀ (l : List ℚ) (a : ℚ),
      (l.foldl min a = a ∨ l.foldl min a ∈ l) ∧
      l.foldl min a ≤ a ∧ ∀ b ∈ l, l.foldl min a ≤ b := by
  intro l
  induction l with
  | nil => intro a; simp
  | cons x xs ih =>
    intro a
    have h := ih (min a x)
    rw [List.foldl_cons]
    refine ⟨?_, ?_, ?_⟩
    · rcases h.1 with heq | hmem
      · rw [heq]
        rcases min_choice a x with h1 | h1
        · exact Or.inl h1
        · exact Or.inr (by rw [h1]; exact List.mem_cons_self x xs)
      · exact Or.inr (List.mem_cons_of_mem x hmem)
    · exact le_trans h.2.1 (min_le_left a x)
    · intro b hb
      rcases List.mem_cons.mp hb with rfl | hb2
      · exact le_trans h.2.1 (min_le_right a b)
      · exact h.2.2 b hb2

theorem foldl_max_spec :
    ∀ (l : List ℚ) (a : ℚ),
      (l.foldl max a = a ∨ l.foldl max a ∈ l) ∧
      a ≤ l.foldl max a ∧ ∀ b ∈ l, b ≤ l.foldl max a := by
  intro l
  induction l with
  | nil => intro a; simp
  | cons x xs ih =>
    intro a
    have h := ih (max a x)
    rw [List.foldl_cons]
    refine ⟨?_, ?_, ?_⟩
    · rcases h.1 with heq | hmem
      · rw [heq]
        rcases max_choice a x with h1 | h1
        · exact Or.inl h1
        · exact Or.inr (by rw [h1]; exact List.mem_cons_self x xs)
      · exact Or.inr (List.mem_cons_of_mem x hmem)
    · exact le_trans (le_max_left a x) h.2.1
    · intro b hb
      rcases List.mem_cons.mp hb with rfl | hb2
      · exact le_trans (le_max_right a b) h.2.1
      · exact h.2.2 b hb2

theorem list_min?_spec {l : List ℚ} {m : ℚ} (h : l.min? = some m) :
    m ∈ l ∧ ∀ a ∈ l, m ≤ a := by
  cases l with
  | nil => simp [List.min?] at h
  | cons x xs =>
    have hx : (x :: xs).min? = some (xs.foldl min x) := rfl
    rw [hx, Option.some.injEq] at h
    subst h
    have spec := foldl_min_spec xs x
    refine ⟨?_, ?_⟩
    · rcases spec.1 with heq | hmem
      · rw [heq]; exact List.mem_cons_self x xs
      · exact List.mem_cons_of_mem x hmem
    · intro a ha
      rcases List.mem_cons.mp ha with rfl | ha2
      · exact spec.2.1
      · exact spec.2.2 a ha2

theorem list_max?_spec {l : List ℚ} {m : ℚ} (h : l.max? = some m) :
    m ∈ l ∧ ∀ a ∈ l, a ≤ m := by
  cases l with
  | nil => simp [List.max?] at h
  | cons x xs =>
    have hx : (x :: xs).max? = some (xs.foldl max x) := rfl
    rw [hx, Option.some.injEq] at h
    subst h
    have spec := foldl_max_spec xs x
    refine ⟨?_, ?_⟩
    · rcases spec.1 with heq | hmem
      · rw [heq]; exact List.mem_cons_self x xs
      · exact List.mem_cons_of_mem x hmem
    · intro a ha
      rcases List.mem_cons.mp ha with rfl | ha2
      · exact spec.2.1
      · exact spec.2.2 a ha2

theorem candLE_refl (N : ℕ) (a : Candidate) : candLE N a a = true := by
  simp [candLE]

theorem candLE_total (N : ℕ) (a b : Candidate) :
    candLE N a b = true ∨ candLE N b a = true := by
  simp only [candLE, decide_eq_true_eq]
  omega

theorem candLE_trans (N : ℕ) (a b c : Candidate) :
    candLE N a b = true → candLE N b c = true → candLE N a c = true := by
  simp only [candLE, decide_eq_true_eq]
  omega

theorem candLE_iff_keyLE (N : ℕ) (a b : Candidate) :
    candLE N a b = true ↔ keyLE (candKey N a) (candKey N b) := by
  simp [candLE, keyLE]

theorem shr_le_limit_iff (x : WithTop ℚ) (lim : ℚ) :
    shr_le_limit x lim = true ↔ x ≤ (lim : WithTop ℚ) := by
  cases x with
  | top =>
    simp only [shr_le_limit, Bool.false_eq_true, false_iff]
    simp [WithTop.top_le_iff]
  | coe q =>
    simp only [shr_le_limit, decide_eq_true_eq]
    exact (WithTop.coe_le_coe).symm

theorem max_mul_min (r c : ℕ) : max r c * min r c = r * c := by
  rcases le_total r c with h | h
  · rw [max_eq_right h, min_eq_left h, Nat.mul_comm]
  · rw [max_eq_left h, min_eq_right h]

theorem mem_valid_arrays_spec {g : ℚ} {N : ℕ} {ar rl rw rh : ℚ} {c : Candidate}
    (hc : c ∈ valid_arrays g N ar rl rw rh) :
    N ≤ c.array.1 * c.array.2 ∧ shr_ok c g = true ∧
      spacing_valid c.array.1 c.array.2 c.spacing_length c.spacing_width = true := by
  simp only [valid_arrays, List.mem_flatMap, List.mem_filterMap] at hc
  obtain ⟨rows, _hrows, cols, _hcols, heq⟩ := hc
  by_cases h1 : rows * cols < N
  · rw [if_pos h1] at heq
    exact absurd heq (by simp)
  · rw [if_neg h1] at heq
    by_cases h2 : (shr_ok (mk_candidate ar rl rw rh rows cols) g &&
        spacing_valid (mk_candidate ar rl rw rh rows cols).array.1
          (mk_candidate ar rl rw rh rows cols).array.2
          (mk_candidate ar rl rw rh rows cols).spacing_length
          (mk_candidate ar rl rw rh rows cols).spacing_width) = true
    · rw [if_pos h2, Option.some.injEq] at heq
      subst heq
      rw [Bool.and_eq_true] at h2
      refine ⟨?_, h2.1, h2.2⟩
      have harr : (mk_candidate ar rl rw rh rows cols).array.1 *
          (mk_candidate ar rl rw rh rows cols).array.2 = rows * cols := by
        by_cases har : 1 ≤ ar
        · simp only [mk_candidate, if_pos har]
          exact max_mul_min rows cols
        · simp only [mk_candidate, if_neg har]
          rw [Nat.mul_comm]
          exact max_mul_min rows cols
      rw [harr]
      omega
    · rw [if_neg h2] at heq
      exact absurd heq (by simp)

theorem mem_unique_arrays_valid {g : ℚ} {N : ℕ} {ar rl rw rh : ℚ} {c : Candidate}
    (hc : c ∈ unique_arrays g N ar rl rw rh) :
    c ∈ valid_arrays g N ar rl rw rh := by
  have h1 : c ∈ sorted_arrays g N ar rl rw rh :=
    (dedup_by_array_sublist _ _).subset hc
  rw [sorted_arrays] at h1
  exact (mem_stableSort _ c _).mp h1

theorem pairwise_unique_arrays (g : ℚ) (N : ℕ) (ar rl rw rh : ℚ) :
    (unique_arrays g N ar rl rw rh).Pairwise (fun a b => candLE N a b = true) :=
  List.Pairwise.sublist (dedup_by_array_sublist _ _)
    (pairwise_stableSort (candLE_total N) (candLE_trans N) _)

/-- C1: for every candidate returned by the array search (the even one and
the odd one, whenever present), alongLength × acrossWidth is at least the
required fixture count N, and both directional spacing-to-height ratios are
at most the modified spacing-to-height-ratio limit the search uses. -/
theorem find_valid_arrays_returned_candidate_meets_constraints
    (g : ℚ) (N : ℕ) (ar rl rw rh s : ℚ) (c : Candidate)
    (h : (find_valid_arrays g N ar rl rw rh s).1 = some c ∨
         (find_valid_arrays g N ar rl rw rh s).2 = some c) :
    N ≤ c.array.1 * c.array.2 ∧
      c.shr_length ≤ (g : WithTop ℚ) ∧ c.shr_width ≤ (g : WithTop ℚ) := by
  have hc : c ∈ unique_arrays g N ar rl rw rh := by
    simp only [find_valid_arrays] at h
    rcases h with h | h
    · exact List.mem_of_find?_eq_some h
    · exact List.mem_of_find?_eq_some h
  have hv := mem_valid_arrays_spec (mem_unique_arrays_valid hc)
  have hshr := hv.2.1
  rw [shr_ok, Bool.and_eq_true] at hshr
  exact ⟨hv.1, (shr_le_limit_iff _ _).mp hshr.1, (shr_le_limit_iff _ _).mp hshr.2⟩

/-- Witness instantiating C1 at a concrete input: the 4 m × 4 m room, one
required fixture, SHR limit 100. -/
theorem find_valid_arrays_returned_candidate_meets_constraints_witness :
    1 ≤ candidateWitness.array.1 * candidateWitness.array.2 ∧
      candidateWitness.shr_length ≤ ((100 : ℚ) : WithTop ℚ) ∧
      candidateWitness.shr_width ≤ ((100 : ℚ) : WithTop ℚ) :=
  find_valid_arrays_returned_candidate_meets_constraints 100 1 1 4 4 1 0
    candidateWitness (Or.inr (by decide))

/-- C2: among the valid, deduplicated candidates, the search returns as the
even (resp. odd) result a candidate of that parity whose sort key (absolute
difference between total fixtures and N, then total fixtures, compared
lexicographically) is minimal among all candidates of that parity; when no
candidate of a parity exists the result is `none`, a normal value-level
outcome of the total function (no error is raised). -/
theorem find_valid_arrays_selects_minimal_per_parity
    (g : ℚ) (N : ℕ) (ar rl rw rh s : ℚ) :
    (∀ c, (find_valid_arrays g N ar rl rw rh s).1 = some c →
        c ∈ unique_arrays g N ar rl rw rh ∧ c.parity = "even" ∧
        ∀ b ∈ unique_arrays g N ar rl rw rh, b.parity = "even" →
          keyLE (candKey N c) (candKey N b)) ∧
    ((find_valid_arrays g N ar rl rw rh s).1 = none ↔
        ∀ b ∈ unique_arrays g N ar rl rw rh, b.parity ≠ "even") ∧
    (∀ c, (find_valid_arrays g N ar rl rw rh s).2 = some c →
        c ∈ unique_arrays g N ar rl rw rh ∧ c.parity = "odd" ∧
        ∀ b ∈ unique_arrays g N ar rl rw rh, b.parity = "odd" →
          keyLE (candKey N c) (candKey N b)) ∧
    ((find_valid_arrays g N ar rl rw rh s).2 = none ↔
        ∀ b ∈ unique_arrays g N ar rl rw rh, b.parity ≠ "odd") := by
  simp only [find_valid_arrays]
  refine ⟨?_, ?_, ?_, ?_⟩
  · intro c h
    refine ⟨List.mem_of_find?_eq_some h, ?_, ?_⟩
    · have := List.find?_some h
      simpa using this
    · intro b hb hbp
      have hmin := find?_min_of_pairwise (candLE_refl N)
        (pairwise_unique_arrays g N ar rl rw rh) h b hb (by simpa using hbp)
      exact (candLE_iff_keyLE N c b).mp hmin
  · rw [List.find?_eq_none]
    constructor
    · intro h b hb
      have := h b hb
      simpa using this
    · intro h b hb
      simpa using h b hb
  · intro c h
    refine ⟨List.mem_of_find?_eq_some h, ?_, ?_⟩
    · have := List.find?_some h
      simpa using this
    · intro b hb hbp
      have hmin := find?_min_of_pairwise (candLE_refl N)
        (pairwise_unique_arrays g N ar rl rw rh) h b hb (by simpa using hbp)
      exact (candLE_iff_keyLE N c b).mp hmin
  · rw [List.find?_eq_none]
    constructor
    · intro h b hb
      have := h b hb
      simpa using this
    · intro h b hb
      simpa using h b hb

/-- Witness instantiating C2 at a concrete input: for the 4 m × 4 m room the
odd result is the 1 × 1 candidate, it belongs to the deduplicated list, and
its key is minimal among odd candidates. -/
theorem find_valid_arrays_selects_minimal_per_parity_witness :
    candidateWitness ∈ unique_arrays 100 1 1 4 4 1 ∧
      candidateWitness.parity = "odd" ∧
      ∀ b ∈ unique_arrays 100 1 1 4 4 1, b.parity = "odd" →
        keyLE (candKey 1 candidateWitness) (candKey 1 b) :=
  (find_valid_arrays_selects_minimal_per_parity 100 1 1 4 4 1 0).2.2.1
    candidateWitness (by decide)

/-- C8: the minimum-spacing rule has exactly three cases.  With one fixture
along the length only the width spacing is checked, and only when more than
one fixture spans the width (the length spacing is ignored); symmetrically
with one fixture across the width; with more than one in both directions
both spacings must meet the 3.0 m minimum; and a 1 × 1 layout passes
unconditionally. -/
theorem spacing_valid_three_cases :
    (∀ (across : ℕ) (sL sL2 sW : ℚ),
        spacing_valid 1 across sL sW = spacing_valid 1 across sL2 sW) ∧
    (∀ (across : ℕ) (sL sW : ℚ), 1 < across →
        (spacing_valid 1 across sL sW = true ↔ MIN_SPACING ≤ sW)) ∧
    (∀ (along : ℕ) (sL sW sW2 : ℚ),
        spacing_valid along 1 sL sW = spacing_valid along 1 sL sW2) ∧
    (∀ (along : ℕ) (sL sW : ℚ), 1 < along →
        (spacing_valid along 1 sL sW = true ↔ MIN_SPACING ≤ sL)) ∧
    (∀ (along across : ℕ) (sL sW : ℚ), 1 < along → 1 < across →
        (spacing_valid along across sL sW = true ↔
          (MIN_SPACING ≤ sL ∧ MIN_SPACING ≤ sW))) ∧
    (∀ sL sW : ℚ, spacing_valid 1 1 sL sW = true) := by
  refine ⟨?_, ?_, ?_, ?_, ?_, ?_⟩
  · intro across sL sL2 sW
    simp [spacing_valid]
  · intro across sL sW h
    simp [spacing_valid, h]
  · intro along sL sW sW2
    by_cases h : along = 1
    · subst h
      simp [spacing_valid]
    · simp [spacing_valid, h]
  · intro along sL sW h
    have h1 : along ≠ 1 := by omega
    simp [spacing_valid, h1, h]
  · intro along across sL sW ha hb
    have h1 : along ≠ 1 := by omega
    have h2 : across ≠ 1 := by omega
    simp [spacing_valid, h1, h2]
  · intro sL sW
    simp [spacing_valid]

/-- Witness instantiating C8: a single row along the length with five
fixtures across a 16 m width (spacing 3.2 m ≥ 3 m) passes, and a 1 × 1
layout passes with arbitrary spacings. -/
theorem spacing_valid_three_cases_witness :
    spacing_valid 1 5 0 (16/5) = true ∧ spacing_valid 1 1 0 0 = true :=
  ⟨(spacing_valid_three_cases.2.1 5 0 (16/5) (by norm_num)).mpr
      (by norm_num [MIN_SPACING]),
    spacing_valid_three_cases.2.2.2.2.2 0 0⟩

/-- Counterexample to C9 as stated: two invocations of the array search with
identical explicit arguments (including the `shr_nom` parameter) return
different results when the global `metadata['SHRNOM_Modified']` value the
body reads at line 679 differs, so the result is not a function of the
explicit arguments alone. -/
theorem find_valid_arrays_global_state_counterexample :
    find_valid_arrays 100 1 1 4 4 1 0 ≠ find_valid_arrays 0 1 1 4 4 1 0 := by
  decide

/-- C9 (amended): the array search is deterministic given its explicit
arguments together with the global SHRNOM_Modified value; in particular the
explicit `shr_nom` parameter is ignored by the body, which uses the global
instead. -/
theorem find_valid_arrays_ignores_shr_nom_param
    (g : ℚ) (N : ℕ) (ar rl rw rh s1 s2 : ℚ) :
    find_valid_arrays g N ar rl rw rh s1 = find_valid_arrays g N ar rl rw rh s2 :=
  rfl

theorem calculate_number_of_fixtures_ok (E l w f u m : ℚ)
    (hf : 0 < f) (hu : 0 < u) (hm : 0 < m) :
    calculate_number_of_fixtures E l w f u m = .ok ⌈(E * l * w) / (f * u * m)⌉ := by
  rw [calculate_number_of_fixtures, if_neg]
  push_neg
  exact ⟨hf, hu, hm⟩

/-- C6: calculate_number_of_fixtures fails with InvalidPhotometry whenever
luminousFlux ≤ 0 or Uf ≤ 0 or MF ≤ 0; with all three positive it returns the
ceiling of (E × length × width) / (luminousFlux × Uf × MF), an integer that,
for positive room dimensions and E ≥ 0, is at least 1 when E > 0 and is 0
exactly when E = 0. -/
theorem calculate_number_of_fixtures_spec :
    (∀ E l w f u m : ℚ, (f ≤ 0 ∨ u ≤ 0 ∨ m ≤ 0) →
        calculate_number_of_fixtures E l w f u m = .error .invalidPhotometry) ∧
    (∀ E l w f u m : ℚ, 0 < f → 0 < u → 0 < m →
        calculate_number_of_fixtures E l w f u m =
          .ok ⌈(E * l * w) / (f * u * m)⌉) ∧
    (∀ E l w f u m : ℚ, 0 < f → 0 < u → 0 < m → 0 < l → 0 < w → 0 ≤ E →
        ∀ n, calculate_number_of_fixtures E l w f u m = .ok n →
          (0 < E → 1 ≤ n) ∧ (n = 0 ↔ E = 0)) := by
  refine ⟨?_, calculate_number_of_fixtures_ok, ?_⟩
  · intro E l w f u m h
    rw [calculate_number_of_fixtures, if_pos h]
  · intro E l w f u m hf hu hm hl hw hE n hn
    rw [calculate_number_of_fixtures_ok E l w f u m hf hu hm] at hn
    simp only [Except.ok.injEq] at hn
    subst hn
    constructor
    · intro hEpos
      have hq : (0:ℚ) < (E * l * w) / (f * u * m) := by positivity
      have := Int.ceil_pos.mpr hq
      omega
    · constructor
      · intro h0
        by_contra hne
        have hEpos : 0 < E := lt_of_le_of_ne hE (Ne.symm hne)
        have hq : (0:ℚ) < (E * l * w) / (f * u * m) := by positivity
        have := Int.ceil_pos.mpr hq
        omega
      · intro h0
        subst h0
        norm_num

/-- Witness instantiating C6: the spec scenario, 300 lx over a 20 m × 10 m
room, 16000 lm flux, Uf 0.75, MF 0.8, gives the ceiling of 6.25, i.e. 7. -/
theorem calculate_number_of_fixtures_spec_witness :
    calculate_number_of_fixtures 300 20 10 16000 (3/4) (4/5) = .ok 7 := by
  have h := calculate_number_of_fixtures_spec.2.1 300 20 10 16000 (3/4) (4/5)
    (by norm_num) (by norm_num) (by norm_num)
  rw [h]
  norm_num
  decide

/-- C7: with positive flux, Uf, MF and positive room dimensions (and a
nonnegative target illuminance), the fixture count is non-decreasing in E
and in the room area length × width, and non-increasing in luminous flux,
in Uf and in MF. -/
theorem calculate_number_of_fixtures_monotone :
    (∀ l w f u m E1 E2 : ℚ, 0 < l → 0 < w → 0 < f → 0 < u → 0 < m → E1 ≤ E2 →
        ∀ n1 n2 : ℤ, calculate_number_of_fixtures E1 l w f u m = .ok n1 →
          calculate_number_of_fixtures E2 l w f u m = .ok n2 → n1 ≤ n2) ∧
    (∀ E l1 w1 l2 w2 f u m : ℚ, 0 ≤ E → 0 < f → 0 < u → 0 < m →
        l1 * w1 ≤ l2 * w2 →
        ∀ n1 n2 : ℤ, calculate_number_of_fixtures E l1 w1 f u m = .ok n1 →
          calculate_number_of_fixtures E l2 w2 f u m = .ok n2 → n1 ≤ n2) ∧
    (∀ E l w f1 f2 u m : ℚ, 0 ≤ E → 0 < l → 0 < w → 0 < f1 → f1 ≤ f2 →
        0 < u → 0 < m →
        ∀ n1 n2 : ℤ, calculate_number_of_fixtures E l w f1 u m = .ok n1 →
          calculate_number_of_fixtures E l w f2 u m = .ok n2 → n2 ≤ n1) ∧
    (∀ E l w f u1 u2 m : ℚ, 0 ≤ E → 0 < l → 0 < w → 0 < f → 0 < u1 →
        u1 ≤ u2 → 0 < m →
        ∀ n1 n2 : ℤ, calculate_number_of_fixtures E l w f u1 m = .ok n1 →
          calculate_number_of_fixtures E l w f u2 m = .ok n2 → n2 ≤ n1) ∧
    (∀ E l w f u m1 m2 : ℚ, 0 ≤ E → 0 < l → 0 < w → 0 < f → 0 < u →
        0 < m1 → m1 ≤ m2 →
        ∀ n1 n2 : ℤ, calculate_number_of_fixtures E l w f u m1 = .ok n1 →
          calculate_number_of_fixtures E l w f u m2 = .ok n2 → n2 ≤ n1) := by
  refine ⟨?_, ?_, ?_, ?_, ?_⟩
  · intro l w f u m E1 E2 hl hw hf hu hm hE n1 n2 h1 h2
    rw [calculate_number_of_fixtures_ok E1 l w f u m hf hu hm] at h1
    rw [calculate_number_of_fixtures_ok E2 l w f u m hf hu hm] at h2
    simp only [Except.ok.injEq] at h1 h2
    subst h1
    subst h2
    apply Int.ceil_le_ceil
    gcongr
  · intro E l1 w1 l2 w2 f u m hE hf hu hm harea n1 n2 h1 h2
    rw [calculate_number_of_fixtures_ok E l1 w1 f u m hf hu hm] at h1
    rw [calculate_number_of_fixtures_ok E l2 w2 f u m hf hu hm] at h2
    simp only [Except.ok.injEq] at h1 h2
    subst h1
    subst h2
    apply Int.ceil_le_ceil
    have hnum : E * l1 * w1 ≤ E * l2 * w2 := by
      rw [mul_assoc, mul_assoc]
      exact mul_le_mul_of_nonneg_left harea hE
    gcongr
  · intro E l w f1 f2 u m hE hl hw hf1 hff u1 hm n1 n2 h1 h2
    rw [calculate_number_of_fixtures_ok E l w f1 u m hf1 u1 hm] at h1
    rw [calculate_number_of_fixtures_ok E l w f2 u m (lt_of_lt_of_le hf1 hff) u1 hm] at h2
    simp only [Except.ok.injEq] at h1 h2
    subst h1
    subst h2
    apply Int.ceil_le_ceil
    gcongr
  · intro E l w f u1 u2 m hE hl hw hf hu1 huu hm n1 n2 h1 h2
    rw [calculate_number_of_fixtures_ok E l w f u1 m hf hu1 hm] at h1
    rw [calculate_number_of_fixtures_ok E l w f u2 m hf (lt_of_lt_of_le hu1 huu) hm] at h2
    simp only [Except.ok.injEq] at h1 h2
    subst h1
    subst h2
    apply Int.ceil_le_ceil
    gcongr
  · intro E l w f u m1 m2 hE hl hw hf hu hm1 hmm n1 n2 h1 h2
    rw [calculate_number_of_fixtures_ok E l w f u m1 hf hu hm1] at h1
    rw [calculate_number_of_fixtures_ok E l w f u m2 hf hu (lt_of_lt_of_le hm1 hmm)] at h2
    simp only [Except.ok.injEq] at h1 h2
    subst h1
    subst h2
    apply Int.ceil_le_ceil
    gcongr

/-- Witness instantiating C7 (monotonicity in E) at the spec scenario room
with targets 100 lx and 300 lx. -/
theorem calculate_number_of_fixtures_monotone_witness :
    (⌈((100:ℚ) * 20 * 10) / (16000 * (3/4) * (4/5))⌉ : ℤ) ≤
      ⌈((300:ℚ) * 20 * 10) / (16000 * (3/4) * (4/5))⌉ :=
  calculate_number_of_fixtures_monotone.1 20 10 16000 (3/4) (4/5) 100 300
    (by norm_num) (by norm_num) (by norm_num) (by norm_num) (by norm_num)
    (by norm_num) _ _
    (calculate_number_of_fixtures_ok 100 20 10 16000 (3/4) (4/5)
      (by norm_num) (by norm_num) (by norm_num))
    (calculate_number_of_fixtures_ok 300 20 10 16000 (3/4) (4/5)
      (by norm_num) (by norm_num) (by norm_num))

/-- C10: calculate_adjusted_light_level returns E × (actual / required) only
under the precondition that the required count is nonzero; at required
count 0 — exactly what calculate_number_of_fixtures returns for E = 0 with
valid photometry — it fails with a division-by-zero error instead of
returning an adjusted illuminance. -/
theorem calculate_adjusted_light_level_spec :
    (∀ (E : ℚ) (n a : ℤ), n ≠ 0 →
        calculate_adjusted_light_level E n a = .ok (E * ((a : ℚ) / (n : ℚ)))) ∧
    (∀ (E : ℚ) (a : ℤ),
        calculate_adjusted_light_level E 0 a = .error .zeroDivision) ∧
    (∀ l w f u m : ℚ, 0 < f → 0 < u → 0 < m →
        calculate_number_of_fixtures 0 l w f u m = .ok 0) := by
  refine ⟨?_, ?_, ?_⟩
  · intro E n a h
    rw [calculate_adjusted_light_level, if_neg h]
  · intro E a
    rw [calculate_adjusted_light_level, if_pos rfl]
  · intro l w f u m hf hu hm
    rw [calculate_number_of_fixtures_ok 0 l w f u m hf hu hm]
    norm_num

/-- Witness instantiating C10: with 7 required and 8 actual fixtures the
adjusted level is returned. -/
theorem calculate_adjusted_light_level_spec_witness :
    calculate_adjusted_light_level 300 7 8 = .ok (300 * ((8:ℚ) / (7:ℚ))) :=
  calculate_adjusted_light_level_spec.1 300 7 8 (by norm_num)

theorem list_map_eq_self {α : Type} (f : α → α) :
    ∀ l : List α, (∀ x ∈ l, f x = x) → l.map f = l := by
  intro l
  induction l with
  | nil => intro _; rfl
  | cons x xs ih =>
    intro h
    rw [List.map_cons, h x (List.mem_cons_self x xs),
      ih (fun y hy => h y (List.mem_cons_of_mem x hy))]

/-- Counterexample to C3 as stated: on a table whose K column holds a
non-numeric text cell, the caller's table observed after interpolate_uf is
not the one passed in — the in-place coercion at line 497 turned that cell
into a missing value. -/
theorem interpolate_uf_mutates_caller_table :
    (interpolate_uf 1 70 50 20 dfBadKey).1 ≠ dfBadKey := by
  decide

/-- C3 (amended): interpolate_uf coerces the caller's K column in place, so
the caller-supplied table is observed unchanged after the call exactly in
the absence of non-numeric text K cells: whenever every K cell is already
numeric or missing, the table is returned intact whatever the requested
point and outcome. -/
theorem interpolate_uf_preserves_table_without_text_keys
    (K Rc Rw Rf : ℚ) (df : UfDF)
    (h : ∀ r ∈ df.rows, r.1 ≠ Cell.nonnumeric) :
    (interpolate_uf K Rc Rw Rf df).1 = df := by
  obtain ⟨hd, rs⟩ := df
  simp only [interpolate_uf, coerce_k_column, UfDF.mk.injEq, true_and]
  apply list_map_eq_self
  intro r hr
  have hne := h r hr
  obtain ⟨c, vs⟩ := r
  cases c with
  | num q => rfl
  | nonnumeric => exact absurd rfl hne
  | nan => rfl

/-- Witness instantiating C3 (amended): the all-numeric example table is
returned unchanged. -/
theorem interpolate_uf_preserves_table_without_text_keys_witness :
    (interpolate_uf 1 70 50 20 dfExample).1 = dfExample :=
  interpolate_uf_preserves_table_without_text_keys 1 70 50 20 dfExample
    (by decide)

theorem filter_le_max_at_mem {K : ℚ} {ks : List ℚ} (hK : K ∈ ks) :
    (ks.filter (fun a => decide (a ≤ K))).max? = some K := by
  have hKf : K ∈ ks.filter (fun a => decide (a ≤ K)) := by
    rw [List.mem_filter]
    exact ⟨hK, by simp⟩
  cases hmax : (ks.filter (fun a => decide (a ≤ K))).max? with
  | none =>
    rw [List.max?_eq_none_iff] at hmax
    rw [hmax] at hKf
    simp at hKf
  | some m =>
    have spec := list_max?_spec hmax
    have hm1 : m ≤ K := by
      have h := spec.1
      rw [List.mem_filter] at h
      simpa using h.2
    have hm2 : K ≤ m := spec.2 K hKf
    rw [le_antisymm hm1 hm2]

theorem filter_ge_min_at_mem {K : ℚ} {ks : List ℚ} (hK : K ∈ ks) :
    (ks.filter (fun a => decide (K ≤ a))).min? = some K := by
  have hKf : K ∈ ks.filter (fun a => decide (K ≤ a)) := by
    rw [List.mem_filter]
    exact ⟨hK, by simp⟩
  cases hmin : (ks.filter (fun a => decide (K ≤ a))).min? with
  | none =>
    rw [List.min?_eq_none_iff] at hmin
    rw [hmin] at hKf
    simp at hKf
  | some m =>
    have spec := list_min?_spec hmin
    have hm1 : K ≤ m := by
      have h := spec.1
      rw [List.mem_filter] at h
      simpa using h.2
    have hm2 : m ≤ K := spec.2 K hKf
    rw [le_antisymm hm2 hm1]

theorem table_lookup_at_mem {cleaned : List (ℚ × List ℚ)} {k : ℚ} {i : ℕ}
    (hk : k ∈ cleaned.map Prod.fst)
    (hlen : ∀ r ∈ cleaned, i < r.2.length) :
    ∃ v, table_lookup cleaned k i = some v := by
  rw [List.mem_map] at hk
  obtain ⟨r0, hr0, hr0k⟩ := hk
  have hsome : (cleaned.find? (fun r => decide (r.1 = k))).isSome := by
    rw [List.find?_isSome]
    exact ⟨r0, hr0, by simp [hr0k]⟩
  obtain ⟨r, hr⟩ := Option.isSome_iff_exists.mp hsome
  have hrmem := List.mem_of_find?_eq_some hr
  rw [table_lookup, hr]
  have hi := hlen r hrmem
  exact ⟨r.2.get ⟨i, hi⟩, List.get?_eq_get hi⟩

theorem sorted_dist_col_mem {Rc Rw Rf : ℚ} {df : UfDF} {d : ℚ} {i : ℕ}
    (h : (d, i) ∈ stableSort distLE (distancesList Rc Rw Rf df)) :
    ∃ x ∈ reflectance_combinations df, x.1 = i := by
  rw [mem_stableSort, distancesList, List.mem_map] at h
  obtain ⟨x, hx, hxi⟩ := h
  rw [Prod.mk.injEq] at hxi
  exact ⟨x, hx, hxi.2⟩

theorem after_range_ne_outOfRange (K Rc Rw Rf : ℚ) (df : UfDF) :
    interpolate_after_range K Rc Rw Rf df ≠ .error .outOfRange := by
  rw [interpolate_after_range]
  split
  · simp
  · split
    · split
      · split
        · split
          · simp
          · simp
        · split
          · simp
          · simp
      · simp
    · simp

/-- C5: given a table with numeric cavity-index keys, interpolate_uf fails
with the out-of-range error exactly when K is strictly below the smallest
key or strictly above the largest; at K equal to either bound (for a table
with at least two parsed reflectance columns and rows long enough for them)
the interpolation succeeds — the bounds are inclusive. -/
theorem interpolate_uf_range_boundary (K Rc Rw Rf : ℚ) (df : UfDF) (minK maxK : ℚ)
    (hmin : ((cleanedRows df).map Prod.fst).min? = some minK)
    (hmax : ((cleanedRows df).map Prod.fst).max? = some maxK)
    (hcols : 2 ≤ (reflectance_combinations df).length)
    (hlook : ∀ r ∈ cleanedRows df, ∀ x ∈ reflectance_combinations df, x.1 < r.2.length) :
    ((interpolate_uf K Rc Rw Rf df).2 = .error .outOfRange ↔ (K < minK ∨ maxK < K)) ∧
    ((K = minK ∨ K = maxK) → ∃ q, (interpolate_uf K Rc Rw Rf df).2 = .ok q) := by
  have hcore : (interpolate_uf K Rc Rw Rf df).2 = interpolate_core K Rc Rw Rf df := rfl
  have hbm : below_min K ((cleanedRows df).map Prod.fst) = decide (K < minK) := by
    rw [below_min, hmin]
  have ham : above_max K ((cleanedRows df).map Prod.fst) = decide (maxK < K) := by
    rw [above_max, hmax]
  constructor
  · rw [hcore]
    simp only [interpolate_core]
    rw [hbm, ham]
    by_cases hout : K < minK ∨ maxK < K
    · have hc : (decide (K < minK) || decide (maxK < K)) = true := by
        rcases hout with h | h <;> simp [h]
      rw [if_pos hc]
      simp [hout]
    · rw [not_or] at hout
      have hc : ¬((decide (K < minK) || decide (maxK < K)) = true) := by
        simp only [Bool.or_eq_true, decide_eq_true_eq]
        push_neg
        exact ⟨not_lt.mp hout.1, not_lt.mp hout.2⟩
      rw [if_neg hc]
      simp only [after_range_ne_outOfRange K Rc Rw Rf df, false_iff]
      rw [not_or]
      exact hout
  · intro hb
    have hKmem : K ∈ (cleanedRows df).map Prod.fst := by
      rcases hb with rfl | rfl
      · exact (list_min?_spec hmin).1
      · exact (list_max?_spec hmax).1
    have hminle : minK ≤ K := (list_min?_spec hmin).2 K hKmem
    have hmaxge : K ≤ maxK := (list_max?_spec hmax).2 K hKmem
    rw [hcore]
    simp only [interpolate_core]
    rw [hbm, ham]
    have hc : ¬((decide (K < minK) || decide (maxK < K)) = true) := by
      simp only [Bool.or_eq_true, decide_eq_true_eq]
      push_neg
      exact ⟨hminle, hmaxge⟩
    rw [if_neg hc]
    simp only [interpolate_after_range]
    have hne : ¬(reflectance_combinations df = []) := by
      intro h
      rw [h] at hcols
      simp at hcols
    rw [if_neg hne]
    have hlen2 : 2 ≤ (stableSort distLE (distancesList Rc Rw Rf df)).length := by
      rw [length_stableSort, distancesList, List.length_map]
      exact hcols
    obtain ⟨d1, rest1, hs1⟩ :
        ∃ d1 rest1, stableSort distLE (distancesList Rc Rw Rf df) = d1 :: rest1 := by
      cases h : stableSort distLE (distancesList Rc Rw Rf df) with
      | nil => rw [h] at hlen2; simp at hlen2
      | cons a t => exact ⟨a, t, rfl⟩
    obtain ⟨d2, rest2, hs2⟩ : ∃ d2 rest2, rest1 = d2 :: rest2 := by
      cases h : rest1 with
      | nil => rw [h] at hs1; rw [hs1] at hlen2; simp at hlen2
      | cons a t => exact ⟨a, t, rfl⟩
    obtain ⟨diff1, col1⟩ := d1
    obtain ⟨diff2, col2⟩ := d2
    rw [hs2] at hs1
    have hc1 : ∃ x ∈ reflectance_combinations df, x.1 = col1 :=
      sorted_dist_col_mem (by rw [hs1]; exact List.mem_cons_self _ _)
    have hc2 : ∃ x ∈ reflectance_combinations df, x.1 = col2 :=
      sorted_dist_col_mem
        (by rw [hs1]; exact List.mem_cons_of_mem _ (List.mem_cons_self _ _))
    obtain ⟨v1, hv1⟩ := table_lookup_at_mem hKmem (fun r hr => by
      obtain ⟨x, hx, hxi⟩ := hc1
      exact hxi ▸ hlook r hr x hx)
    obtain ⟨v2, hv2⟩ := table_lookup_at_mem hKmem (fun r hr => by
      obtain ⟨x, hx, hxi⟩ := hc2
      exact hxi ▸ hlook r hr x hx)
    rw [hs1]
    dsimp only
    rw [filter_le_max_at_mem hKmem, filter_ge_min_at_mem hKmem]
    dsimp only
    rw [if_pos rfl, hv1, hv2]
    exact ⟨_, rfl⟩

/-- Witness instantiating C5 at the example table ([minK, maxK] = [1, 2]):
interpolation at the lower bound K = 1 succeeds. -/
theorem interpolate_uf_range_boundary_witness :
    ∃ q, (interpolate_uf 1 70 50 20 dfExample).2 = .ok q :=
  (interpolate_uf_range_boundary 1 70 50 20 dfExample 1 2
    (by decide) (by decide) (by decide) (by decide)).2 (Or.inl rfl)

/-- C4: when the requested K equals a table key exactly and the requested
reflectances match one column exactly (distance 0, sorted first, the second
column at positive distance d2), the returned utilization factor is the
inverse-distance weighted average of the two column values at that row, and
its deviation from the matched column's stored value is exactly
(v2 − v1) · ε / (d2 + 2ε) — the weighting formula's precision, negligible as
the distance-0 column dominates. -/
theorem interpolate_uf_exact_match (K Rc Rw Rf : ℚ) (df : UfDF) (col1 col2 : ℕ)
    (d2 : ℚ) (rest : List (ℚ × ℕ)) (v1 v2 : ℚ)
    (hK : K ∈ (cleanedRows df).map Prod.fst)
    (hsorted : stableSort distLE (distancesList Rc Rw Rf df) =
      (0, col1) :: (d2, col2) :: rest)
    (hd2 : 0 < d2)
    (hv1 : table_lookup (cleanedRows df) K col1 = some v1)
    (hv2 : table_lookup (cleanedRows df) K col2 = some v2) :
    (interpolate_uf K Rc Rw Rf df).2 = .ok (uf_weighted 0 d2 v1 v2) ∧
    uf_weighted 0 d2 v1 v2 - v1 = (v2 - v1) * (eps / (d2 + 2 * eps)) := by
  constructor
  · have hcore : (interpolate_uf K Rc Rw Rf df).2 = interpolate_core K Rc Rw Rf df := rfl
    rw [hcore]
    simp only [interpolate_core]
    have hbm : below_min K ((cleanedRows df).map Prod.fst) = false := by
      rw [below_min]
      cases hmin : ((cleanedRows df).map Prod.fst).min? with
      | none => rfl
      | some m =>
        have h := (list_min?_spec hmin).2 K hK
        simp [not_lt.mpr h]
    have ham : above_max K ((cleanedRows df).map Prod.fst) = false := by
      rw [above_max]
      cases hmax : ((cleanedRows df).map Prod.fst).max? with
      | none => rfl
      | some m =>
        have h := (list_max?_spec hmax).2 K hK
        simp [not_lt.mpr h]
    rw [hbm, ham]
    rw [if_neg (by simp)]
    simp only [interpolate_after_range]
    have hne : ¬(reflectance_combinations df = []) := by
      intro h
      have hd : distancesList Rc Rw Rf df = [] := by
        rw [distancesList, h]
        rfl
      rw [hd] at hsorted
      simp [stableSort, stableSortAux] at hsorted
    rw [if_neg hne, hsorted]
    dsimp only
    rw [filter_le_max_at_mem hK, filter_ge_min_at_mem hK]
    dsimp only
    rw [if_pos rfl, hv1, hv2]
  · have heps : (0:ℚ) < eps := by norm_num [eps]
    have h2 : d2 + eps ≠ 0 := by positivity
    have h3 : d2 + 2 * eps ≠ 0 := by positivity
    simp only [uf_weighted]
    rw [zero_add]
    have heps0 : eps ≠ 0 := ne_of_gt heps
    field_simp
    ring

/-- Witness instantiating C4 at the example table: K = 1 matches the first
row, reflectances 70/50/20 match the first column exactly (the second column
is at distance 50), and the returned value deviates from 0.5 by exactly
(0.4 − 0.5) · ε / (50 + 2ε). -/
theorem interpolate_uf_exact_match_witness :
    (interpolate_uf 1 70 50 20 dfExample).2 = .ok (uf_weighted 0 50 (1/2) (2/5)) ∧
    uf_weighted 0 50 (1/2) (2/5) - 1/2 = ((2/5 : ℚ) - 1/2) * (eps / (50 + 2 * eps)) :=
  interpolate_uf_exact_match 1 70 50 20 dfExample 0 1 50 [] (1/2) (2/5)
    (by decide) (by decide) (by norm_num) (by decide) (by decide)

end HBCalc
